import Mathlib

/-!
Verification development for the reactivity / virtual-DOM core of this
repository (a dependency-tracking reactivity engine plus a keyed two-ended
tree reconciler).

The definitions below are shallow embeddings of the JavaScript source:

* namespace Wtch   — src/core/observer/watcher.js (class Watcher)
* namespace Sched  — src/core/observer/watcher.js lines 247-500
                     (the scheduler: queueWatcher / flushSchedulerQueue)
* namespace Arr    — the intercepted array mutator (arrayMethods)
* namespace Patch  — src/core/vdom/patch.js (sameVnode, updateChildren,
                     createElm, patchVnode, findIdxInOld, ...)

Modelling conventions, used throughout:

* JavaScript objects become structures; undefined/null-able fields become
  Option.  Reference identity of heap objects is modelled by a numeric
  object id where the code compares with ===.
* Mutation becomes explicit state passing; the host DOM becomes an explicit
  child-list map plus an operation log, so that theorems can count the
  create / move / remove operations a reconciliation performs.
* Exceptions become Except results; a try/finally block becomes straight
  line code executed after the throwing computation's result is known.
* The development build is modelled: blocks guarded by
  process.env.NODE_ENV !== 'production' (the scheduler's circular-update
  guard) are included.  Developer warnings are recorded in the state.
* Loops whose termination is not structurally obvious take an explicit
  fuel argument; running out of fuel is recorded in the state, and the
  concrete theorems check that fuel was sufficient.
-/

namespace Wtch

/-- JavaScript runtime values, as far as the watcher needs them: the
reference-equality comparison value !== this.value and the isObject test.
An object value carries a heap reference id, so that equality of two obj
values models reference identity. -/
inductive JVal where
  | undef : JVal
  | num : Int → JVal
  | str : String → JVal
  | obj : Nat → JVal
deriving DecidableEq, Repr

/-- The isObject helper from src/core/util: true exactly for non-null
values of typeof object (objects and arrays). -/
def isObject : JVal → Bool
  | .obj _ => true
  | _ => false

/-- State of one Watcher instance: the fields of class Watcher that the
claims touch.  deps/depIds and newDeps/newDepIds are the two alternating
dependency collections (dep objects are identified with their numeric ids,
so the dep array and the id set have the same carrier). -/
structure WState where
  id : Nat
  active : Bool
  deep : Bool
  user : Bool
  lazy : Bool
  sync : Bool
  dirty : Bool
  value : JVal
  deps : List Nat
  depIds : List Nat
  newDeps : List Nat
  newDepIds : List Nat
deriving Repr

/-- Global subscriber lists: for each dep id, the list of watcher ids
subscribed to it (Dep.subs). -/
def Subs := Nat → List Nat

/-- Dep.addSub: push the watcher onto the dep's subscriber list. -/
def addSub (subs : Subs) (d wid : Nat) : Subs :=
  fun x => if x = d then subs d ++ [wid] else subs x

/-- Dep.removeSub: remove (the first occurrence of) the watcher from the
dep's subscriber list, as util remove() does via indexOf/splice. -/
def removeSub (subs : Subs) (d wid : Nat) : Subs :=
  fun x => if x = d then (subs d).erase wid else subs x

/-- Watcher.addDep: record dep d in the new collections if not yet there,
and subscribe to it only if it was not in the previous collection either. -/
def addDep (p : WState × Subs) (d : Nat) : WState × Subs :=
  let (w, subs) := p
  if d ∈ w.newDepIds then (w, subs)
  else
    let w := { w with newDepIds := w.newDepIds ++ [d], newDeps := w.newDeps ++ [d] }
    if d ∈ w.depIds then (w, subs) else (w, addSub subs d w.id)

/-- The subscription-dropping half of Watcher.cleanupDeps: walk this.deps
from the back (let i = this.deps.length; while (i--)) and unsubscribe from
every dep whose id is not in the freshly collected set. -/
def cleanupSubs (wid : Nat) (keep : List Nat) (deps : List Nat) (subs : Subs) : Subs :=
  deps.foldr (fun d acc => if d ∈ keep then acc else removeSub acc d wid) subs

/-- Watcher.cleanupDeps: unsubscribe from stale deps, then swap the
collections — the new sets become current and the new-set containers are
cleared for the next round. -/
def cleanupDeps (w : WState) (subs : Subs) : WState × Subs :=
  let subs := cleanupSubs w.id w.newDepIds w.deps subs
  ({ w with depIds := w.newDepIds, newDepIds := [],
            deps := w.newDeps, newDeps := [] }, subs)

/-- Behaviour of one getter invocation: the dep ids it reads (each read
fires dep.depend(), i.e. Dep.target.addDep(dep)), in order, and its
outcome — a value, or a thrown error. -/
structure GetterSpec where
  reads : List Nat
  result : Except String JVal

/-- Result bundle of Watcher.get. -/
structure GetResult where
  w : WState
  subs : Subs
  stack : List Nat
  res : Except String JVal
  handled : List String

/-- Watcher.get: pushTarget(this); run the getter (during which every dep
it touches calls addDep on this watcher, the global target); on a throw,
route the error to handleError for user watchers and rethrow otherwise;
finally popTarget() and cleanupDeps().  The target stack is the list of
watcher ids with the active target at the head; since this watcher is the
target for the whole evaluation, the reads act on this watcher's state. -/
def getW (w : WState) (subs : Subs) (stack : List Nat) (g : GetterSpec) : GetResult :=
  let stack1 := w.id :: stack
  let p2 := g.reads.foldl addDep (w, subs)
  let rh : Except String JVal × List String :=
    match g.result with
    | .ok v => (.ok v, [])
    | .error e => if w.user then (.ok .undef, [e]) else (.error e, [])
  let stack2 := stack1.tail
  let q := cleanupDeps p2.1 p2.2
  { w := q.1, subs := q.2, stack := stack2, res := rh.1, handled := rh.2 }

/-- Result bundle of Watcher.run. -/
structure RunResult where
  w : WState
  subs : Subs
  stack : List Nat
  invoked : Option (JVal × JVal)
  threw : Option String

/-- Watcher.run: only if active, re-evaluate via get(); invoke the
callback with (new, old) exactly when the value changed by reference, is
an object, or the watcher is deep; a rethrown getter error propagates out
of run (recorded in threw) without touching the cached value. -/
def runW (w : WState) (subs : Subs) (stack : List Nat) (g : GetterSpec) : RunResult :=
  if w.active then
    let r := getW w subs stack g
    match r.res with
    | .error e =>
      { w := r.w, subs := r.subs, stack := r.stack, invoked := none, threw := some e }
    | .ok value =>
      if value ≠ r.w.value || isObject value || r.w.deep then
        let oldValue := r.w.value
        { w := { r.w with value := value }, subs := r.subs, stack := r.stack,
          invoked := some (value, oldValue), threw := none }
      else
        { w := r.w, subs := r.subs, stack := r.stack, invoked := none, threw := none }
  else
    { w := w, subs := subs, stack := stack, invoked := none, threw := none }

/-- Watcher.teardown: if still active, remove this watcher from the owner
component's list (unless the owner is being destroyed), unsubscribe from
every held dep (walking deps from the back), and mark inactive forever. -/
def teardownW (w : WState) (subs : Subs) (vmDestroyed : Bool) (vmWatchers : List Nat) :
    WState × Subs × List Nat :=
  if w.active then
    let vmW := if ¬vmDestroyed then vmWatchers.erase w.id else vmWatchers
    let subs := w.deps.foldr (fun d acc => removeSub acc d w.id) subs
    ({ w with active := false }, subs, vmW)
  else
    (w, subs, vmWatchers)

/-- One external stimulus applied to a watcher after the fact: update is
Watcher.update (a dep invalidated it — lazy sets dirty, sync runs at once,
otherwise it is queued and the scheduler invokes run later); schedRun is
the scheduler invoking run on a previously queued watcher. -/
inductive WAct where
  | update (g : GetterSpec)
  | schedRun (g : GetterSpec)

/-- Apply one stimulus; returns the new state and the callback invocation
it caused, if any. -/
def actW (p : WState × Subs) (a : WAct) : (WState × Subs) × Option (JVal × JVal) :=
  match a with
  | .update g =>
    if p.1.lazy then (({ p.1 with dirty := true }, p.2), none)
    else if p.1.sync then
      let r := runW p.1 p.2 [] g
      ((r.w, r.subs), r.invoked)
    else
      (p, none)
  | .schedRun g =>
    let r := runW p.1 p.2 [] g
    ((r.w, r.subs), r.invoked)

/-- Run a whole sequence of stimuli, collecting every callback invocation. -/
def runSeq (acts : List WAct) (p : WState × Subs) : (WState × Subs) × List (JVal × JVal) :=
  match acts with
  | [] => (p, [])
  | a :: rest =>
    let r1 := actW p a
    let r2 := runSeq rest r1.1
    (r2.1, r1.2.toList ++ r2.2)

/-- The dedicated order-preserving duplicate-dropping collection the getter
builds in newDeps: first occurrence of each dep id is kept, in read order. -/
def collectedDeps (reads : List Nat) : List Nat :=
  reads.foldl (fun acc d => if d ∈ acc then acc else acc ++ [d]) []


theorem addDep_fst (w : WState) (subs : Subs) (d : Nat) :
    ((addDep (w, subs) d).1).id = w.id ∧
    ((addDep (w, subs) d).1).active = w.active ∧
    ((addDep (w, subs) d).1).deep = w.deep ∧
    ((addDep (w, subs) d).1).user = w.user ∧
    ((addDep (w, subs) d).1).lazy = w.lazy ∧
    ((addDep (w, subs) d).1).sync = w.sync ∧
    ((addDep (w, subs) d).1).dirty = w.dirty ∧
    ((addDep (w, subs) d).1).value = w.value ∧
    ((addDep (w, subs) d).1).deps = w.deps ∧
    ((addDep (w, subs) d).1).depIds = w.depIds ∧
    ((addDep (w, subs) d).1).newDeps
      = (if d ∈ w.newDepIds then w.newDeps else w.newDeps ++ [d]) ∧
    ((addDep (w, subs) d).1).newDepIds
      = (if d ∈ w.newDepIds then w.newDepIds else w.newDepIds ++ [d]) := by
  by_cases h1 : d ∈ w.newDepIds <;> by_cases h2 : d ∈ w.depIds <;>
    simp [addDep, h1, h2]

theorem addDep_snd (w : WState) (subs : Subs) (d x : Nat) (hx : x ∈ w.depIds) :
    (addDep (w, subs) d).2 x = subs x := by
  by_cases h1 : d ∈ w.newDepIds <;> by_cases h2 : d ∈ w.depIds <;>
    simp only [addDep, h1, h2, if_true, if_false, ite_true, ite_false]
  have hxd : x ≠ d := fun h => h2 (h ▸ hx)
  simp [addSub, hxd]


theorem foldl_addDep_spec : ∀ (reads : List Nat) (w : WState) (subs : Subs),
    w.newDeps = w.newDepIds →
    ((reads.foldl addDep (w, subs)).1).id = w.id ∧
    ((reads.foldl addDep (w, subs)).1).active = w.active ∧
    ((reads.foldl addDep (w, subs)).1).deep = w.deep ∧
    ((reads.foldl addDep (w, subs)).1).user = w.user ∧
    ((reads.foldl addDep (w, subs)).1).value = w.value ∧
    ((reads.foldl addDep (w, subs)).1).deps = w.deps ∧
    ((reads.foldl addDep (w, subs)).1).depIds = w.depIds ∧
    ((reads.foldl addDep (w, subs)).1).newDeps = ((reads.foldl addDep (w, subs)).1).newDepIds ∧
    ((reads.foldl addDep (w, subs)).1).newDepIds
      = reads.foldl (fun acc d => if d ∈ acc then acc else acc ++ [d]) w.newDepIds ∧
    (∀ x, x ∈ w.depIds → (reads.foldl addDep (w, subs)).2 x = subs x)
  | [], w, subs => by
    intro hinv
    simpa using hinv
  | d :: rest, w, subs => by
    intro hinv
    obtain ⟨ha1, ha2, ha3, ha4, ha5, ha6, ha7, ha8, ha9, ha10, ha11, ha12⟩ :=
      addDep_fst w subs d
    have hpair : addDep (w, subs) d = ((addDep (w, subs) d).1, (addDep (w, subs) d).2) := rfl
    have hinv1 : ((addDep (w, subs) d).1).newDeps = ((addDep (w, subs) d).1).newDepIds := by
      rw [ha11, ha12, hinv]
    have ih := foldl_addDep_spec rest ((addDep (w, subs) d).1) ((addDep (w, subs) d).2) hinv1
    obtain ⟨ih1, ih2, ih3, ih4, ih5, ih6, ih7, ih8, ih9, ih10⟩ := ih
    rw [List.foldl_cons, hpair]
    refine ⟨?_, ?_, ?_, ?_, ?_, ?_, ?_, ?_, ?_, ?_⟩
    · rw [ih1, ha1]
    · rw [ih2, ha2]
    · rw [ih3, ha3]
    · rw [ih4, ha4]
    · rw [ih5, ha8]
    · rw [ih6, ha9]
    · rw [ih7, ha10]
    · exact ih8
    · rw [ih9, ha12, List.foldl_cons]
    · intro x hx
      rw [ih10 x (by rw [ha10]; exact hx), addDep_snd w subs d x hx]

theorem cleanupSubs_not_mem (wid : Nat) (keep : List Nat) :
    ∀ (deps : List Nat) (subs : Subs) (x : Nat), x ∉ deps →
      cleanupSubs wid keep deps subs x = subs x
  | [], subs, x => by intro; rfl
  | a :: rest, subs, x => by
    intro hx
    have hxa : x ≠ a := fun h => hx (h ▸ List.mem_cons_self a rest)
    have hxr : x ∉ rest := fun h => hx (List.mem_cons_of_mem a h)
    show (if a ∈ keep then cleanupSubs wid keep rest subs
          else removeSub (cleanupSubs wid keep rest subs) a wid) x = subs x
    by_cases hk : a ∈ keep
    · rw [if_pos hk]; exact cleanupSubs_not_mem wid keep rest subs x hxr
    · rw [if_neg hk]
      show (fun y => if y = a then _ else cleanupSubs wid keep rest subs y) x = subs x
      simp only [if_neg hxa]
      exact cleanupSubs_not_mem wid keep rest subs x hxr

theorem cleanupSubs_dropped (wid : Nat) (keep : List Nat) :
    ∀ (deps : List Nat) (subs : Subs) (x : Nat), deps.Nodup → x ∈ deps → x ∉ keep →
      cleanupSubs wid keep deps subs x = (subs x).erase wid
  | [], subs, x => by intro _ hx; exact absurd hx (List.not_mem_nil x)
  | a :: rest, subs, x => by
    intro hnd hx hk
    have har : a ∉ rest := (List.nodup_cons.mp hnd).1
    have hndr : rest.Nodup := (List.nodup_cons.mp hnd).2
    show (if a ∈ keep then cleanupSubs wid keep rest subs
          else removeSub (cleanupSubs wid keep rest subs) a wid) x = (subs x).erase wid
    rcases List.mem_cons.mp hx with hxa | hxr
    · subst hxa
      rw [if_neg hk]
      show (fun y => if y = x then (cleanupSubs wid keep rest subs x).erase wid
            else cleanupSubs wid keep rest subs y) x = (subs x).erase wid
      rw [cleanupSubs_not_mem wid keep rest subs x har]
      simp
    · have hxa : x ≠ a := fun h => har (h ▸ hxr)
      by_cases hka : a ∈ keep
      · rw [if_pos hka]
        exact cleanupSubs_dropped wid keep rest subs x hndr hxr hk
      · rw [if_neg hka]
        show (fun y => if y = a then _ else cleanupSubs wid keep rest subs y) x
          = (subs x).erase wid
        simp only [if_neg hxa]
        exact cleanupSubs_dropped wid keep rest subs x hndr hxr hk

/-- C6: Watcher.get always pops the evaluation-target stack and reconciles
its dependency sets afterwards — every dep of the previous round that was
not re-registered is unsubscribed via removeSub, the newly collected set
becomes the current set, the new-set containers are left empty — and a
thrown getter error is passed to the external error handler for user
watchers and rethrown for non-user watchers.  The hypotheses say the
watcher is between evaluations (empty new-collections, id set matching the
dep list, no duplicate deps), which is how get() always finds it. -/
theorem c6_get_contract (w : WState) (subs : Subs) (stack : List Nat) (g : GetterSpec)
    (hnew : w.newDeps = []) (hnewIds : w.newDepIds = []) (hids : w.depIds = w.deps)
    (hnd : w.deps.Nodup) :
    (getW w subs stack g).stack = stack ∧
    (getW w subs stack g).w.deps = collectedDeps g.reads ∧
    (getW w subs stack g).w.depIds = collectedDeps g.reads ∧
    (getW w subs stack g).w.newDeps = [] ∧
    (getW w subs stack g).w.newDepIds = [] ∧
    (∀ d, d ∈ w.deps → d ∉ collectedDeps g.reads →
      (getW w subs stack g).subs d = (subs d).erase w.id) ∧
    (∀ e, g.result = .error e →
      (w.user = true →
        (getW w subs stack g).res = .ok .undef ∧ (getW w subs stack g).handled = [e]) ∧
      (w.user = false →
        (getW w subs stack g).res = .error e ∧ (getW w subs stack g).handled = [])) ∧
    (∀ v, g.result = .ok v →
      (getW w subs stack g).res = .ok v ∧ (getW w subs stack g).handled = []) := by
  have hinv : w.newDeps = w.newDepIds := by rw [hnew, hnewIds]
  obtain ⟨h1, h2, h3, h4, h5, h6, h7, h8, h9, h10⟩ := foldl_addDep_spec g.reads w subs hinv
  have hcoll : ((g.reads.foldl addDep (w, subs)).1).newDepIds = collectedDeps g.reads := by
    rw [h9, hnewIds]; rfl
  refine ⟨?_, ?_, ?_, ?_, ?_, ?_, ?_, ?_⟩
  · simp [getW]
  · simp only [getW, cleanupDeps]
    rw [h8, hcoll]
  · simp only [getW, cleanupDeps]
    rw [hcoll]
  · simp [getW, cleanupDeps]
  · simp [getW, cleanupDeps]
  · intro d hd hk
    simp only [getW, cleanupDeps]
    rw [h1, h6, hcoll]
    rw [cleanupSubs_dropped w.id (collectedDeps g.reads) w.deps _ d hnd hd hk]
    rw [h10 d (by rw [hids]; exact hd)]
  · intro e he
    constructor
    · intro hu
      simp [getW, he, hu]
    · intro hu
      simp [getW, he, hu]
  · intro v hv
    simp [getW, hv]

def c6wIn : WState :=
  { id := 1, active := true, deep := false, user := true, lazy := false, sync := false,
    dirty := false, value := .undef, deps := [5], depIds := [5], newDeps := [], newDepIds := [] }

def c6subsIn : Subs := fun _ => [1]

def c6gIn : GetterSpec := { reads := [6], result := .error "boom" }

/-- Witness for C6 at a concrete user watcher whose getter reads dep 6 and
throws: stale dep 5 is unsubscribed and the error is handled, not rethrown. -/
theorem c6_get_contract_witness :
    (getW c6wIn c6subsIn [] c6gIn).stack = [] ∧
    (getW c6wIn c6subsIn [] c6gIn).w.deps = collectedDeps [6] ∧
    (getW c6wIn c6subsIn [] c6gIn).subs 5 = ([1].erase 1) ∧
    (getW c6wIn c6subsIn [] c6gIn).res = .ok .undef := by
  have h := c6_get_contract c6wIn c6subsIn [] c6gIn rfl rfl rfl (by decide)
  refine ⟨h.1, h.2.1, ?_, ((h.2.2.2.2.2.2.1 "boom" rfl).1 rfl).1⟩
  have h5 := h.2.2.2.2.2.1 5 (by decide) (by decide)
  simpa [c6subsIn] using h5

theorem getW_preserves (w : WState) (subs : Subs) (stack : List Nat) (g : GetterSpec)
    (hinv : w.newDeps = w.newDepIds) :
    (getW w subs stack g).w.value = w.value ∧ (getW w subs stack g).w.deep = w.deep := by
  obtain ⟨h1, h2, h3, h4, h5, h6, h7, h8, h9, h10⟩ := foldl_addDep_spec g.reads w subs hinv
  constructor
  · simp only [getW, cleanupDeps]
    exact h5
  · simp only [getW, cleanupDeps]
    exact h3

/-- C7: for an active watcher, one re-evaluation step (Watcher.run) invokes
the completion callback with the pair (new value, old value) exactly when
the new value differs from the cached one by reference, or is an object or
array, or the watcher is a deep one; otherwise the callback is not invoked
and the cached value is unchanged. -/
theorem c7_run_callback_iff (w : WState) (subs : Subs) (stack : List Nat) (g : GetterSpec)
    (v : JVal) (hact : w.active = true) (hok : g.result = .ok v)
    (hnew : w.newDeps = []) (hnewIds : w.newDepIds = []) :
    ((runW w subs stack g).invoked = some (v, w.value) ↔
      (v ≠ w.value ∨ isObject v = true ∨ w.deep = true)) ∧
    ((runW w subs stack g).invoked = none → (runW w subs stack g).w.value = w.value) := by
  have hp := getW_preserves w subs stack g (by rw [hnew, hnewIds])
  have hres : (getW w subs stack g).res = Except.ok v := by simp [getW, hok]
  have hval := hp.1
  have hdeep := hp.2
  simp only [runW, hact, if_true, hres, hval, hdeep]
  by_cases hc : (v ≠ w.value ∨ isObject v = true ∨ w.deep = true)
  · have hb : (decide (v ≠ w.value) || isObject v || w.deep) = true := by
      rcases hc with h | h | h <;> simp [h]
    rw [hb]
    simp only [if_true]
    exact ⟨by simp [hc], by simp⟩
  · have hc2 := hc
    push_neg at hc2
    have h1 : decide (v ≠ w.value) = false := by simp [hc2.1]
    have h2 : isObject v = false := by simpa using hc2.2.1
    have h3 : w.deep = false := by simpa using hc2.2.2
    have hb : (decide (v ≠ w.value) || isObject v || w.deep) = false := by
      rw [h1, h2, h3]
      rfl
    rw [hb]
    simp only [Bool.false_eq_true, if_false]
    exact ⟨by simp [hc], fun _ => hval⟩

def c7wIn : WState :=
  { id := 2, active := true, deep := false, user := false, lazy := false, sync := false,
    dirty := false, value := .num 0, deps := [], depIds := [], newDeps := [], newDepIds := [] }

def c7gIn : GetterSpec := { reads := [], result := .ok (.num 1) }

/-- Witness for C7 at a concrete active watcher whose value changes from 0
to 1: the callback fires with (new, old) = (1, 0). -/
theorem c7_run_callback_iff_witness :
    (runW c7wIn (fun _ => []) [] c7gIn).invoked = some (.num 1, .num 0) := by
  have h := c7_run_callback_iff c7wIn (fun _ => []) [] c7gIn (.num 1) rfl rfl rfl rfl
  exact h.1.mpr (Or.inl (by decide))

theorem teardownW_active (w : WState) (subs : Subs) (vmD : Bool) (vmW : List Nat) :
    (teardownW w subs vmD vmW).1.active = false := by
  cases hw : w.active <;> simp [teardownW, hw]

theorem runW_inactive (w : WState) (subs : Subs) (stack : List Nat) (g : GetterSpec)
    (h : w.active = false) :
    runW w subs stack g
      = { w := w, subs := subs, stack := stack, invoked := none, threw := none } := by
  simp [runW, h]

theorem actW_inactive (p : WState × Subs) (a : WAct) (h : p.1.active = false) :
    ((actW p a).1).1.active = false ∧ (actW p a).2 = none := by
  cases a with
  | update g =>
    by_cases hl : p.1.lazy = true
    · simp [actW, hl, h]
    · have hl' : p.1.lazy = false := by revert hl; cases p.1.lazy <;> simp
      by_cases hs : p.1.sync = true
      · simp [actW, hl', hs, runW_inactive _ _ _ _ h, h]
      · have hs' : p.1.sync = false := by revert hs; cases p.1.sync <;> simp
        simp [actW, hl', hs', h]
  | schedRun g =>
    simp [actW, runW_inactive _ _ _ _ h, h]

theorem runSeq_inactive : ∀ (acts : List WAct) (p : WState × Subs),
    p.1.active = false → (runSeq acts p).2 = []
  | [], p => by intro; rfl
  | a :: rest, p => by
    intro h
    have hi := actW_inactive p a h
    show ((actW p a).2).toList ++ (runSeq rest (actW p a).1).2 = []
    rw [hi.2, runSeq_inactive rest (actW p a).1 hi.1]
    rfl

/-- C8: teardown makes a watcher permanently inactive — it is inactive
afterwards, no later sequence of invalidations (update calls, or the
scheduler running a previously queued watcher) ever invokes its callback
again, and a second teardown call changes nothing. -/
theorem c8_teardown_permanent (w : WState) (subs : Subs) (vmD : Bool) (vmW : List Nat) :
    (teardownW w subs vmD vmW).1.active = false ∧
    (∀ acts : List WAct,
      (runSeq acts ((teardownW w subs vmD vmW).1, (teardownW w subs vmD vmW).2.1)).2 = []) ∧
    teardownW (teardownW w subs vmD vmW).1 (teardownW w subs vmD vmW).2.1 vmD
        (teardownW w subs vmD vmW).2.2
      = ((teardownW w subs vmD vmW).1, (teardownW w subs vmD vmW).2.1,
         (teardownW w subs vmD vmW).2.2) := by
  have ha := teardownW_active w subs vmD vmW
  refine ⟨ha, ?_, ?_⟩
  · intro acts
    exact runSeq_inactive acts _ ha
  · set t := teardownW w subs vmD vmW with ht
    show teardownW t.1 t.2.1 vmD t.2.2 = (t.1, t.2.1, t.2.2)
    simp [teardownW, ha]

end Wtch

namespace Sched

/-- MAX_UPDATE_COUNT from the scheduler: the fixed bound on re-queues of
one watcher id within a single flush. -/
def MAX_UPDATE_COUNT : Nat := 100

/-- Scheduler state (watchers are identified with their numeric ids, which
is also what the queue stores and what all comparisons use):
queue, the has presence map, the circular re-queue tally, the index of the
currently running queue position, and the flushing/waiting flags.  warned
records the ids for which the infinite-update diagnostic was surfaced.
The development build is modelled, so the circular tally is live. -/
structure SchedState where
  queue : List Nat
  has : Nat → Bool
  circular : Nat → Nat
  index : Nat
  flushing : Bool
  waiting : Bool
  warned : List Nat

/-- The backward scan of queueWatcher during a flush: starting from
position i, walk left while i > index and queue[i].id > watcher.id, and
return the splice position i + 1.  (The i = 0 case returns 1 because the
loop guard i > index can never hold there for a Nat index.) -/
def scanGo (queue : List Nat) (index wid : Nat) : Nat → Nat
  | 0 => 1
  | i + 1 =>
    if i + 1 > index ∧ wid < queue.getD (i + 1) 0 then scanGo queue index wid i
    else i + 2

/-- The full splice position: the scan starts at queue.length - 1; an empty
queue splices at 0. -/
def spliceInsertPos (queue : List Nat) (index wid : Nat) : Nat :=
  match queue.length with
  | 0 => 0
  | n + 1 => scanGo queue index wid n

/-- queueWatcher: skip if the id is already pending; otherwise mark it
present and either append (no flush running) or splice into the sorted
not-yet-processed remainder (flush running).  The waiting flag stands for
the nextTick(flushSchedulerQueue) request having been made. -/
def queueWatcher (s : SchedState) (wid : Nat) : SchedState :=
  if s.has wid then s
  else
    let s := { s with has := fun x => if x = wid then true else s.has x }
    let s :=
      if ¬ s.flushing then { s with queue := s.queue ++ [wid] }
      else { s with queue := s.queue.insertIdx (spliceInsertPos s.queue s.index wid) wid }
    if ¬ s.waiting then { s with waiting := true } else s

/-- One iteration of the flush loop body: run queue[index] — clearing its
has entry just before, applying every queueWatcher call its run performs
(the behaviour function beh gives the ids each watcher's run schedules),
then tallying the circular counter if it got itself re-queued; returns
true in the second component when the MAX_UPDATE_COUNT guard fired (the
warn-and-break path).  The before hook is not modelled (none of the
watchers considered here has one). -/
def runOne (beh : Nat → List Nat) (s : SchedState) : SchedState × Bool :=
  let wid := s.queue.getD s.index 0
  let s := { s with has := fun x => if x = wid then false else s.has x }
  let s := (beh wid).foldl queueWatcher s
  if s.has wid then
    let c := s.circular wid + 1
    let s := { s with circular := fun x => if x = wid then c else s.circular x }
    if c > MAX_UPDATE_COUNT then ({ s with warned := s.warned ++ [wid] }, true)
    else (s, false)
  else (s, false)

/-- The index-driven flush loop of flushSchedulerQueue, with fuel: for
(index = 0; index < queue.length; index++) run one watcher, stopping early
on the circular-update break. -/
def flushLoop (beh : Nat → List Nat) : Nat → SchedState → Option SchedState
  | 0, _ => none
  | fuel + 1, s =>
    if s.index < s.queue.length then
      let r := runOne beh s
      if r.2 then some r.1
      else flushLoop beh fuel { r.1 with index := r.1.index + 1 }
    else some s

/-- State at the top of flushSchedulerQueue, for a pending queue q: the
queue is sorted ascending by id, every queued id is in the has set, all
tallies are zero and flushing is on. -/
def initFlushState (q : List Nat) : SchedState :=
  { queue := q.mergeSort (fun a b => a ≤ b), has := fun v => decide (v ∈ q),
    circular := fun _ => 0, index := 0, flushing := true, waiting := true, warned := [] }

/-- Termination measure for the flush loop under a single self-re-queuing
watcher: pending distance plus twice the remaining tally budget. -/
def flushMeasure (w : Nat) (s : SchedState) : Nat :=
  (s.queue.length - s.index) + 2 * ((MAX_UPDATE_COUNT + 1) - s.circular w)

theorem scanGo_le (queue : List Nat) (index wid : Nat) :
    ∀ i, scanGo queue index wid i ≤ i + 1
  | 0 => by simp [scanGo]
  | i + 1 => by
    show (if i + 1 > index ∧ wid < queue.getD (i + 1) 0 then scanGo queue index wid i
          else i + 2) ≤ i + 2
    split_ifs with h
    · exact le_trans (scanGo_le queue index wid i) (by omega)
    · exact le_refl _

theorem scanGo_ge (queue : List Nat) (index wid : Nat) :
    ∀ i, index ≤ i → index + 1 ≤ scanGo queue index wid i
  | 0 => by
    intro h
    interval_cases index
    simp [scanGo]
  | i + 1 => by
    intro h
    show index + 1 ≤
      (if i + 1 > index ∧ wid < queue.getD (i + 1) 0 then scanGo queue index wid i else i + 2)
    split_ifs with hcond
    · exact scanGo_ge queue index wid i (by omega)
    · omega

theorem spliceInsertPos_ge (queue : List Nat) (index wid : Nat)
    (h : index < queue.length) : index + 1 ≤ spliceInsertPos queue index wid := by
  unfold spliceInsertPos
  match hl : queue.length with
  | 0 => omega
  | n + 1 => exact scanGo_ge queue index wid n (by omega)

theorem spliceInsertPos_le (queue : List Nat) (index wid : Nat) :
    spliceInsertPos queue index wid ≤ queue.length := by
  unfold spliceInsertPos
  match hl : queue.length with
  | 0 => exact le_refl _
  | n + 1 => exact scanGo_le queue index wid n

theorem insertIdx_eq_take_cons_drop (a : Nat) :
    ∀ (n : Nat) (l : List Nat), n ≤ l.length →
      l.insertIdx n a = l.take n ++ a :: l.drop n
  | 0, l => by intro; simp
  | n + 1, [] => by intro h; simp at h
  | n + 1, x :: xs => by
    intro h
    show x :: xs.insertIdx n a = x :: (xs.take n ++ a :: xs.drop n)
    rw [insertIdx_eq_take_cons_drop a n xs (by simpa using h)]

theorem runOne_other (beh : Nat → List Nat) (s : SchedState)
    (hbeh : beh (s.queue.getD s.index 0) = []) :
    (runOne beh s).2 = false ∧
    (runOne beh s).1.queue = s.queue ∧
    (runOne beh s).1.index = s.index ∧
    (runOne beh s).1.circular = s.circular ∧
    (runOne beh s).1.warned = s.warned ∧
    (runOne beh s).1.flushing = s.flushing := by
  simp only [runOne]
  rw [hbeh]
  simp

theorem runOne_self (beh : Nat → List Nat) (w : Nat) (s : SchedState)
    (hwid : s.queue.getD s.index 0 = w) (hbw : beh w = [w]) (hflush : s.flushing = true) :
    (runOne beh s).1.queue = s.queue.insertIdx (spliceInsertPos s.queue s.index w) w ∧
    (runOne beh s).1.index = s.index ∧
    (runOne beh s).1.flushing = true ∧
    (runOne beh s).1.circular w = s.circular w + 1 ∧
    (runOne beh s).1.warned
      = (if s.circular w + 1 > MAX_UPDATE_COUNT then s.warned ++ [w] else s.warned) ∧
    (runOne beh s).2 = decide (s.circular w + 1 > MAX_UPDATE_COUNT) := by
  simp only [runOne]
  rw [hwid, hbw]
  by_cases hwait : s.waiting = true <;>
    by_cases hcm : s.circular w + 1 > MAX_UPDATE_COUNT <;>
      simp [queueWatcher, hflush, hwait, hcm]

theorem flushLoop_self_requeue (beh : Nat → List Nat) (w : Nat)
    (hbw : beh w = [w]) (hother : ∀ v, v ≠ w → beh v = []) :
    ∀ (n : Nat) (s : SchedState),
      flushMeasure w s ≤ n → s.flushing = true → w ∈ s.queue.drop s.index →
      s.warned = [] → s.circular w ≤ MAX_UPDATE_COUNT →
      ∃ s', flushLoop beh n s = some s' ∧ s'.warned = [w] ∧
        s'.circular w = MAX_UPDATE_COUNT + 1
  | 0, s => by
    intro hmu hf hm hw hc
    exfalso
    simp only [flushMeasure, MAX_UPDATE_COUNT] at hmu hc
    omega
  | n + 1, s => by
    intro hmu hf hm hw hc
    by_cases hidx : s.index < s.queue.length
    · have hdrop := List.drop_eq_getElem_cons hidx
      have hget := List.getD_eq_getElem s.queue 0 hidx
      by_cases hww : s.queue.getD s.index 0 = w
      · obtain ⟨hA, hB, hC, hD, hWarn, hR2⟩ :=
          runOne_self beh w s hww hbw hf
        have hple := spliceInsertPos_le s.queue s.index w
        have hpge := spliceInsertPos_ge s.queue s.index w hidx
        have hlen : (runOne beh s).1.queue.length = s.queue.length + 1 := by
          rw [hA, List.length_insertIdx _ _ hple]
        by_cases hcmax : s.circular w + 1 > MAX_UPDATE_COUNT
        · have hr2 : (runOne beh s).2 = true := by rw [hR2]; simp [hcmax]
          refine ⟨(runOne beh s).1, ?_, ?_, ?_⟩
          · show flushLoop beh (n + 1) s = some (runOne beh s).1
            simp only [flushLoop, if_pos hidx, hr2, if_true]
          · rw [hWarn, if_pos hcmax, hw]
            rfl
          · rw [hD]
            simp only [MAX_UPDATE_COUNT] at hc hcmax ⊢
            omega
        · have hr2 : (runOne beh s).2 = false := by rw [hR2]; simp [hcmax]
          have hmem2 : w ∈ (runOne beh s).1.queue.drop (s.index + 1) := by
            rw [hA, insertIdx_eq_take_cons_drop w _ _ hple]
            have hlt : s.index + 1 ≤ (s.queue.take (spliceInsertPos s.queue s.index w)).length := by
              rw [List.length_take]
              omega
            rw [List.drop_append_of_le_length hlt]
            exact List.mem_append_right _ (List.mem_cons_self w _)
          have ih := flushLoop_self_requeue beh w hbw hother n
            { (runOne beh s).1 with index := (runOne beh s).1.index + 1 }
            (by
              simp only [flushMeasure] at hmu ⊢
              rw [hlen, hB, hD]
              simp only [MAX_UPDATE_COUNT] at hmu hc hcmax ⊢
              omega)
            (by simpa using hC)
            (by simpa [hB] using hmem2)
            (by simp only []; rw [hWarn, if_neg hcmax, hw])
            (by
              simp only []
              rw [hD]
              simp only [MAX_UPDATE_COUNT] at hcmax ⊢
              omega)
          obtain ⟨s', hs', hw', hc'⟩ := ih
          refine ⟨s', ?_, hw', hc'⟩
          show flushLoop beh (n + 1) s = some s'
          simp only [flushLoop, if_pos hidx, hr2]
          simpa using hs'
      · obtain ⟨hR2, hQ, hI, hCirc, hWarn, hF⟩ := runOne_other beh s (hother _ hww)
        have hmem2 : w ∈ (runOne beh s).1.queue.drop (s.index + 1) := by
          rw [hQ]
          rw [hdrop] at hm
          rcases List.mem_cons.mp hm with h | h
          · exact absurd (hget.trans h.symm) hww
          · exact h
        have ih := flushLoop_self_requeue beh w hbw hother n
          { (runOne beh s).1 with index := (runOne beh s).1.index + 1 }
          (by
            simp only [flushMeasure] at hmu ⊢
            rw [hQ, hI, hCirc]
            omega)
          (by simpa [hF] using hf)
          (by simpa [hI] using hmem2)
          (by simpa [hWarn] using hw)
          (by simpa [hCirc] using hc)
        obtain ⟨s', hs', hw', hc'⟩ := ih
        refine ⟨s', ?_, hw', hc'⟩
        show flushLoop beh (n + 1) s = some s'
        simp only [flushLoop, if_pos hidx, hR2]
        simpa using hs'
    · exfalso
      have hnil : s.queue.drop s.index = [] := List.drop_eq_nil_iff.mpr (by omega)
      rw [hnil] at hm
      exact List.not_mem_nil w hm

/-- C4: a flush in which watcher w re-schedules itself on every one of its
runs (and no other queued watcher schedules anything) terminates: the
flush loop completes within queue-length + 203 iterations of fuel, surfaces
exactly one infinite-update diagnostic naming w, and stops running w for
the rest of the flush once its re-queue tally exceeds MAX_UPDATE_COUNT. -/
theorem c4_self_requeue_flush_terminates (beh : Nat → List Nat) (w : Nat) (q : List Nat)
    (hbw : beh w = [w]) (hother : ∀ v, v ≠ w → beh v = []) (hmem : w ∈ q) :
    ∃ s', flushLoop beh (q.length + 203) (initFlushState q) = some s' ∧
      s'.warned = [w] ∧ s'.circular w = MAX_UPDATE_COUNT + 1 := by
  apply flushLoop_self_requeue beh w hbw hother
  · show flushMeasure w (initFlushState q) ≤ q.length + 203
    simp only [flushMeasure, initFlushState, MAX_UPDATE_COUNT]
    rw [List.length_mergeSort]
    omega
  · rfl
  · show w ∈ ((initFlushState q).queue.drop 0)
    simp only [initFlushState, List.drop_zero]
    exact List.mem_mergeSort.mpr hmem
  · rfl
  · show (0 : Nat) ≤ MAX_UPDATE_COUNT
    simp [MAX_UPDATE_COUNT]

def c4behIn : Nat → List Nat := fun v => if v = 1 then [1] else []

/-- Witness for C4 with the single watcher 1 whose every run re-queues
itself. -/
theorem c4_self_requeue_flush_terminates_witness :
    ∃ s', flushLoop c4behIn 204 (initFlushState [1]) = some s' ∧
      s'.warned = [1] ∧ s'.circular 1 = MAX_UPDATE_COUNT + 1 := by
  have h := c4_self_requeue_flush_terminates c4behIn 1 [1] (by simp [c4behIn])
    (by intro v hv; simp [c4behIn, hv]) (by simp)
  simpa using h

theorem scanGo_spec (q : List Nat) (idx wid : Nat) :
    ∀ i, idx ≤ i → i < q.length →
      (∀ t, i < t → t < q.length → wid < q.getD t 0) →
      (scanGo q idx wid i ≤ i + 1 ∧
       idx + 1 ≤ scanGo q idx wid i ∧
       (∀ t, scanGo q idx wid i ≤ t → t < q.length → wid < q.getD t 0) ∧
       (scanGo q idx wid i = idx + 1 ∨
        (idx + 1 ≤ scanGo q idx wid i - 1 ∧ q.getD (scanGo q idx wid i - 1) 0 ≤ wid)))
  | 0 => by
    intro hle hlen hinv
    interval_cases idx
    refine ⟨by simp [scanGo], by simp [scanGo], ?_, Or.inl (by simp [scanGo])⟩
    intro t ht htl
    exact hinv t (by simpa [scanGo] using ht) htl
  | i + 1 => by
    intro hle hlen hinv
    simp only [scanGo]
    by_cases hcond : i + 1 > idx ∧ wid < q.getD (i + 1) 0
    · rw [if_pos hcond]
      have hrec := scanGo_spec q idx wid i (by omega) (by omega)
        (fun t ht htl => by
          rcases Nat.lt_or_ge (i + 1) t with h | h
          · exact hinv t h htl
          · have ht1 : t = i + 1 := by omega
            subst ht1
            exact hcond.2)
      exact ⟨le_trans hrec.1 (by omega), hrec.2.1, hrec.2.2.1, hrec.2.2.2⟩
    · rw [if_neg hcond]
      refine ⟨by omega, by omega, ?_, ?_⟩
      · intro t ht htl
        exact hinv t (by omega) htl
      · rcases Nat.lt_or_ge idx (i + 1) with h | h
        · right
          constructor
          · omega
          · have h2 : ¬ wid < q.getD (i + 1) 0 := fun hw => hcond ⟨h, hw⟩
            simpa using Nat.le_of_not_lt h2
        · left
          omega

theorem spliceInsertPos_spec (q : List Nat) (idx wid : Nat) (hidx : idx < q.length) :
    spliceInsertPos q idx wid ≤ q.length ∧
    idx + 1 ≤ spliceInsertPos q idx wid ∧
    (∀ t, spliceInsertPos q idx wid ≤ t → t < q.length → wid < q.getD t 0) ∧
    (spliceInsertPos q idx wid = idx + 1 ∨
     (idx + 1 ≤ spliceInsertPos q idx wid - 1 ∧
      q.getD (spliceInsertPos q idx wid - 1) 0 ≤ wid)) := by
  have hred : spliceInsertPos q idx wid = scanGo q idx wid (q.length - 1) := by
    unfold spliceInsertPos
    match hl : q.length with
    | 0 => omega
    | n + 1 => simp
  rw [hred]
  have hmain := scanGo_spec q idx wid (q.length - 1) (by omega) (by omega)
    (fun t ht htl => absurd htl (by omega))
  exact ⟨by omega, hmain.2.1, hmain.2.2.1, hmain.2.2.2⟩

theorem queueWatcher_flushing_insert (s : SchedState) (wid : Nat)
    (hhas : s.has wid = false) (hfl : s.flushing = true) (hidx : s.index < s.queue.length)
    (hsort : (s.queue.drop (s.index + 1)).Sorted (· < ·))
    (hnot : wid ∉ s.queue.drop (s.index + 1)) :
    ((queueWatcher s wid).queue
        = s.queue.take (spliceInsertPos s.queue s.index wid)
          ++ wid :: s.queue.drop (spliceInsertPos s.queue s.index wid)) ∧
    s.index < spliceInsertPos s.queue s.index wid ∧
    (queueWatcher s wid).queue.take (s.index + 1) = s.queue.take (s.index + 1) ∧
    ((queueWatcher s wid).queue.drop (s.index + 1)).Sorted (· < ·) ∧
    (∀ m, s.index < m → m < spliceInsertPos s.queue s.index wid →
      ¬ ((s.queue.take m ++ wid :: s.queue.drop m).drop (s.index + 1)).Sorted (· < ·)) := by
  obtain ⟨hple, hpge, habove, hlast⟩ := spliceInsertPos_spec s.queue s.index wid hidx
  generalize hP : spliceInsertPos s.queue s.index wid = p at *
  have hqueue : (queueWatcher s wid).queue = s.queue.insertIdx p wid := by
    by_cases hwait : s.waiting = true <;>
      simp [queueWatcher, hhas, hfl, hwait, hP]
  have hq2 : (queueWatcher s wid).queue = s.queue.take p ++ wid :: s.queue.drop p := by
    rw [hqueue, insertIdx_eq_take_cons_drop wid p s.queue hple]
  have hrlen : (s.queue.drop (s.index + 1)).length = s.queue.length - (s.index + 1) :=
    List.length_drop _ _
  have hrget : ∀ j (hj : j < (s.queue.drop (s.index + 1)).length),
      (s.queue.drop (s.index + 1))[j] = s.queue.getD (s.index + 1 + j) 0 := by
    intro j hj
    rw [List.getElem_drop]
    rw [List.getD_eq_getElem s.queue 0 (by omega)]
  have hsplit : ∀ m, s.index + 1 ≤ m → m ≤ s.queue.length →
      (s.queue.take m ++ wid :: s.queue.drop m).drop (s.index + 1)
        = (s.queue.drop (s.index + 1)).take (m - (s.index + 1))
          ++ wid :: (s.queue.drop (s.index + 1)).drop (m - (s.index + 1)) := by
    intro m hm1 hm2
    have hlt : s.index + 1 ≤ (s.queue.take m).length := by
      rw [List.length_take]
      omega
    rw [List.drop_append_of_le_length hlt, List.drop_take]
    have hdd : s.queue.drop m = (s.queue.drop (s.index + 1)).drop (m - (s.index + 1)) := by
      rw [List.drop_drop]
      congr 1
      omega
    rw [hdd]
  have hF2 : ∀ j (hj : j < (s.queue.drop (s.index + 1)).length),
      p - (s.index + 1) ≤ j → wid < (s.queue.drop (s.index + 1))[j] := by
    intro j hj hkj
    rw [hrget j hj]
    exact habove (s.index + 1 + j) (by omega) (by omega)
  have hF1 : ∀ j (hj : j < (s.queue.drop (s.index + 1)).length),
      j < p - (s.index + 1) → (s.queue.drop (s.index + 1))[j] < wid := by
    intro j hj hjk
    rcases hlast with heq | ⟨hge, hle2⟩
    · omega
    · have hk1 : p - 1 - (s.index + 1) < (s.queue.drop (s.index + 1)).length := by omega
      have hlastpos : (s.queue.drop (s.index + 1))[p - 1 - (s.index + 1)]
          = s.queue.getD (p - 1) 0 := by
        rw [hrget _ hk1]
        congr 1
        omega
      have hmemlast : (s.queue.drop (s.index + 1))[p - 1 - (s.index + 1)]
          ∈ s.queue.drop (s.index + 1) := List.getElem_mem _
      have hnelast : (s.queue.drop (s.index + 1))[p - 1 - (s.index + 1)] ≠ wid :=
        fun h => hnot (h ▸ hmemlast)
      have hltlast : (s.queue.drop (s.index + 1))[p - 1 - (s.index + 1)] < wid :=
        lt_of_le_of_ne (by rw [hlastpos]; exact hle2) hnelast
      rcases Nat.lt_or_ge j (p - 1 - (s.index + 1)) with hcase | hcase
      · have := List.pairwise_iff_getElem.mp hsort j (p - 1 - (s.index + 1)) hj hk1 hcase
        exact lt_trans this hltlast
      · have hje : j = p - 1 - (s.index + 1) := by omega
        subst hje
        exact hltlast
  have hG1 : ∀ x ∈ (s.queue.drop (s.index + 1)).take (p - (s.index + 1)), x < wid := by
    intro x hx
    obtain ⟨j, hjlen, hjx⟩ := List.mem_iff_getElem.mp hx
    have hjr : j < (s.queue.drop (s.index + 1)).length := by
      rw [List.length_take] at hjlen
      omega
    have hjk : j < p - (s.index + 1) := by
      rw [List.length_take] at hjlen
      omega
    rw [← hjx, List.getElem_take]
    exact hF1 j hjr hjk
  have hG2 : ∀ x ∈ (s.queue.drop (s.index + 1)).drop (p - (s.index + 1)), wid < x := by
    intro x hx
    obtain ⟨j, hjlen, hjx⟩ := List.mem_iff_getElem.mp hx
    have hjr : p - (s.index + 1) + j < (s.queue.drop (s.index + 1)).length := by
      rw [List.length_drop] at hjlen
      omega
    rw [← hjx, List.getElem_drop]
    exact hF2 _ hjr (by omega)
  refine ⟨hq2, by omega, ?_, ?_, ?_⟩
  · rw [hq2]
    rw [List.take_append_of_le_length (by rw [List.length_take]; omega)]
    rw [List.take_take]
    congr 1
    omega
  · rw [hq2, hsplit p hpge hple]
    refine List.pairwise_append.mpr ⟨?_, ?_, ?_⟩
    · exact List.Pairwise.sublist (List.take_sublist _ _) hsort
    · refine List.pairwise_cons.mpr ⟨hG2, ?_⟩
      exact List.Pairwise.sublist (List.drop_sublist _ _) hsort
    · intro x hx y hy
      rcases List.mem_cons.mp hy with rfl | hy2
      · exact hG1 x hx
      · exact lt_trans (hG1 x hx) (hG2 y hy2)
  · intro m hm1 hm2 hsorted2
    have hm2' : m ≤ s.queue.length := by omega
    rw [hsplit m (by omega) hm2'] at hsorted2
    have hk'r : m - (s.index + 1) < (s.queue.drop (s.index + 1)).length := by omega
    have hmem : (s.queue.drop (s.index + 1))[m - (s.index + 1)]
        ∈ (s.queue.drop (s.index + 1)).drop (m - (s.index + 1)) := by
      rw [List.drop_eq_getElem_cons hk'r]
      exact List.mem_cons_self _ _
    have hwlt : wid < (s.queue.drop (s.index + 1))[m - (s.index + 1)] :=
      (List.pairwise_cons.mp (List.pairwise_append.mp hsorted2).2.1).1 _ hmem
    have hltw : (s.queue.drop (s.index + 1))[m - (s.index + 1)] < wid :=
      hF1 _ hk'r (by omega)
    omega

/-- C5: the queueWatcher contract — a watcher whose id is already pending
leaves the queue unchanged; otherwise the id is marked present and the
watcher is appended when no flush is running; during a flush it is spliced
(scanning backward from the queue end) into the earliest position after the
currently running index that keeps the not-yet-processed remainder of the
queue in ascending id order, and the entries at or before the running index
are never reordered. -/
theorem c5_queueWatcher_spec (s : SchedState) (wid : Nat) :
    (s.has wid = true → queueWatcher s wid = s) ∧
    (s.has wid = false → (queueWatcher s wid).has wid = true) ∧
    (s.has wid = false → s.flushing = false →
      (queueWatcher s wid).queue = s.queue ++ [wid]) ∧
    (s.has wid = false → s.flushing = true → s.index < s.queue.length →
      (s.queue.drop (s.index + 1)).Sorted (· < ·) →
      wid ∉ s.queue.drop (s.index + 1) →
      ((queueWatcher s wid).queue
          = s.queue.take (spliceInsertPos s.queue s.index wid)
            ++ wid :: s.queue.drop (spliceInsertPos s.queue s.index wid)) ∧
      s.index < spliceInsertPos s.queue s.index wid ∧
      (queueWatcher s wid).queue.take (s.index + 1) = s.queue.take (s.index + 1) ∧
      ((queueWatcher s wid).queue.drop (s.index + 1)).Sorted (· < ·) ∧
      (∀ m, s.index < m → m < spliceInsertPos s.queue s.index wid →
        ¬ ((s.queue.take m ++ wid :: s.queue.drop m).drop (s.index + 1)).Sorted (· < ·))) := by
  refine ⟨?_, ?_, ?_, ?_⟩
  · intro h
    simp [queueWatcher, h]
  · intro h
    by_cases hfl : s.flushing = true <;> by_cases hwait : s.waiting = true <;>
      simp [queueWatcher, h, hfl, hwait]
  · intro h hfl
    by_cases hwait : s.waiting = true <;>
      simp [queueWatcher, h, hfl, hwait]
  · intro h hfl hidx hsort hnot
    exact queueWatcher_flushing_insert s wid h hfl hidx hsort hnot

def c5stateIn : SchedState :=
  { queue := [2, 5, 9], has := fun v => decide (v = 5 ∨ v = 9), circular := fun _ => 0,
    index := 0, flushing := true, waiting := true, warned := [] }

/-- Witness for C5: during a flush running index 0 of queue [2, 5, 9],
scheduling watcher 7 splices it between 5 and 9. -/
theorem c5_queueWatcher_spec_witness :
    (queueWatcher c5stateIn 7).queue = [2, 5] ++ 7 :: [9] ∧
    (queueWatcher c5stateIn 7).queue.take 1 = [2] := by
  have h := (c5_queueWatcher_spec c5stateIn 7).2.2.2 (by decide) rfl (by decide)
    (by decide) (by decide)
  constructor
  · have h1 := h.1
    rwa [show spliceInsertPos c5stateIn.queue c5stateIn.index 7 = 2 from by decide] at h1
  · have h3 := h.2.2.1
    simpa using h3

end Sched

namespace Arr

/-- The seven intercepted array mutators, with their arguments.  splice is
modelled in its full form (start, deleteCount, insert items); the inserted
elements are args.slice(2), i.e. exactly the items component. -/
inductive AMeth (α : Type) where
  | push (args : List α)
  | pop
  | shift
  | unshift (args : List α)
  | splice (start delCount : Int) (items : List α)
  | sort
  | reverse

/-- Return values of the native methods: a new length (push/unshift), an
optional element (pop/shift, undefined on an empty array), or an array
(splice's removed slice, and sort/reverse which return the array itself). -/
inductive ARes (α : Type) where
  | len (n : Nat)
  | elem (x : Option α)
  | arr (l : List α)
deriving DecidableEq

/-- ECMAScript splice's actual start: negative values count from the end
clamped at 0, positive ones are clamped to the length. -/
def spliceStart (len : Nat) (start : Int) : Nat :=
  if start < 0 then ((len : Int) + start).toNat else min start.toNat len

/-- ECMAScript splice's actual delete count, clamped to [0, len - start]. -/
def spliceDel (len s0 : Nat) (delCount : Int) : Nat :=
  min (max delCount 0).toNat (len - s0)

/-- The native Array.prototype methods, as list transformations together
with their return value.  The host sort's comparator details are
irrelevant to the claims; it is modelled as a total sort of the list. -/
def nativeMutate [LinearOrder α] : AMeth α → List α → List α × ARes α
  | .push args, l => (l ++ args, .len (l.length + args.length))
  | .pop, l => (l.dropLast, .elem l.getLast?)
  | .shift, l => (l.tail, .elem l.head?)
  | .unshift args, l => (args ++ l, .len (args.length + l.length))
  | .splice start dc items, l =>
    let s0 := spliceStart l.length start
    let d := spliceDel l.length s0 dc
    (l.take s0 ++ items ++ l.drop (s0 + d), .arr ((l.drop s0).take d))
  | .sort, l =>
    (l.mergeSort (fun a b => decide (a ≤ b)), .arr (l.mergeSort (fun a b => decide (a ≤ b))))
  | .reverse, l => (l.reverse, .arr l.reverse)

/-- Observable side effects of the interceptor: ob.observeArray(inserted)
instrumenting the inserted elements, and ob.dep.notify(). -/
inductive AEvent (α : Type) where
  | observeArray (xs : List α)
  | notify
deriving DecidableEq

/-- The inserted variable of the mutator: args for push/unshift,
args.slice(2) for splice, undefined for the rest.  The guard if (inserted)
is truthy exactly when this is defined (an empty array is truthy in JS). -/
def insertedOf {α : Type} : AMeth α → Option (List α)
  | .push args => some args
  | .unshift args => some args
  | .splice _ _ items => some items
  | _ => none

/-- The intercepted mutator from arrayMethods: run the cached original
method first, then observeArray the inserted elements if any, then notify
the array's collection-level dep, and return the original result. -/
def mutator [LinearOrder α] (m : AMeth α) (l : List α) :
    List α × ARes α × List (AEvent α) :=
  let r := nativeMutate m l
  let evs :=
    (match insertedOf m with
     | some xs => [AEvent.observeArray xs]
     | none => []) ++ [AEvent.notify]
  (r.1, r.2, evs)

/-- The claim's description of which elements count as newly inserted:
all arguments for push/unshift, the arguments from the third onward for
splice, none for the other four methods. -/
def claimInserted {α : Type} : AMeth α → Option (List α)
  | .push args => some args
  | .unshift args => some args
  | .splice _ _ items => some items
  | .pop => none
  | .shift => none
  | .sort => none
  | .reverse => none

/-- Test for the notify event. -/
def isNotify {α : Type} : AEvent α → Bool
  | .notify => true
  | _ => false

/-- C9: every intercepted mutator performs the native mutation first and
returns its result unchanged, instruments exactly the claim's inserted
elements via observeArray, and notifies the collection-level dep exactly
once, as the last event after the instrumentation. -/
theorem c9_mutator_contract [LinearOrder α] (m : AMeth α) (l : List α) :
    ((mutator m l).1, (mutator m l).2.1) = nativeMutate m l ∧
    (mutator m l).2.2
      = (match claimInserted m with
         | some xs => [AEvent.observeArray xs]
         | none => []) ++ [AEvent.notify] ∧
    ((mutator m l).2.2.countP isNotify) = 1 ∧
    (mutator m l).2.2.getLast? = some AEvent.notify := by
  cases m <;>
    simp [mutator, nativeMutate, insertedOf, claimInserted, isNotify, List.countP,
      List.countP.go]

end Arr

namespace Patch

/-- Async component factory, compared by identity in sameVnode (the fid
field models the function object's identity); error is set when loading
failed, resolved once the real component constructor is available. -/
structure AsyncFactory where
  fid : Nat
  error : Option Bool
  resolved : Option Nat
deriving DecidableEq, Repr

/-- The attrs part of a vnode's data bag, as far as sameInputType reads
it: only the type attribute matters. -/
structure VAttrs where
  type : Option String
deriving DecidableEq, Repr

/-- A vnode's data bag. sameVnode only tests its definedness and (for
inputs) data.attrs.type; hooks and modules are external collaborators and
the modelled backend registers none. -/
structure VNodeData where
  attrs : Option VAttrs
deriving DecidableEq, Repr

/-- A render node, with the fields patch.js reads.  oid is the object's
heap identity (=== comparisons); elm is the materialized host node's id;
children is undefined or an array (text vnodes carry text instead). -/
structure VNode where
  oid : Nat
  tag : Option String
  key : Option Nat
  data : Option VNodeData
  children : Option (List VNode)
  text : Option String
  elm : Option Nat
  isComment : Bool
  isStatic : Bool
  isCloned : Bool
  isOnce : Bool
  isAsyncPlaceholder : Bool
  asyncFactory : Option AsyncFactory
  componentInstance : Option Nat

/-- The JavaScript value of the chain isDef(i = a.data) && isDef(i = i.attrs)
&& i.type: false when the chain breaks, otherwise the type attribute
(undefined when absent).  false === undefined is false in JS, so the three
outcomes must stay distinct. -/
inductive JTypeVal where
  | jfalse
  | jundef
  | jstr (s : String)
deriving DecidableEq, Repr

/-- Modelled from the spec: isTextInputType lives in
src/platforms/web/util/element.js, which is not among the provided
sources; the spec refers to "the special case of a text-input element".
It is the standard membership test for the text-entry input types. -/
def isTextInputTypeStr (s : String) : Bool :=
  s == "text" || s == "number" || s == "password" || s == "search" || s == "email" ||
    s == "tel" || s == "url"

/-- Computed input type value of a vnode (the typeA / typeB chain). -/
def inputTypeOf (v : VNode) : JTypeVal :=
  match v.data with
  | none => .jfalse
  | some d =>
    match d.attrs with
    | none => .jfalse
    | some a =>
      match a.type with
      | none => .jundef
      | some s => .jstr s

/-- isTextInputType applied to a computed type value: only a string can be
a text input type. -/
def isTextInputTypeJ : JTypeVal → Bool
  | .jstr s => isTextInputTypeStr s
  | _ => false

/-- sameInputType from patch.js: vacuously true unless a is an input;
otherwise the computed types must be identical or both text input types. -/
def sameInputType (a b : VNode) : Bool :=
  if a.tag ≠ some "input" then true
  else
    decide (inputTypeOf a = inputTypeOf b) ||
      (isTextInputTypeJ (inputTypeOf a) && isTextInputTypeJ (inputTypeOf b))

/-- The isUndef(b.asyncFactory.error) test.  A vnode flagged as async
placeholder always carries a factory in library-produced trees, so the
none case (where the JS chain could not be evaluated at all) is
unreachable there. -/
def afErrorUndef (b : VNode) : Bool :=
  match b.asyncFactory with
  | some f => f.error.isNone
  | none => true

/-- sameVnode from patch.js, lines 35-50. -/
def sameVnode (a b : VNode) : Bool :=
  decide (a.key = b.key) &&
  decide (a.asyncFactory = b.asyncFactory) &&
  ((decide (a.tag = b.tag) && decide (a.isComment = b.isComment) &&
    decide (a.data.isSome = b.data.isSome) && sameInputType a b)
   ||
   (a.isAsyncPlaceholder && afErrorUndef b))

/-- The claim's reading of "the input type attributes": the attribute as a
plain optional value, with no distinction for where the chain broke. -/
def claimTypeAttr (v : VNode) : Option String :=
  (v.data.bind (fun d => d.attrs)).bind (fun a => a.type)

/-- C1's sameness predicate exactly as the claim states it: equal keys,
identical async factories, and either (equal tag, equal comment flag,
matching data definedness and — when the tag is input — equal input type
attributes) or (a an unresolved async placeholder whose factory has not
recorded an error). -/
def c1ClaimPred (a b : VNode) : Bool :=
  decide (a.key = b.key) &&
  decide (a.asyncFactory = b.asyncFactory) &&
  ((decide (a.tag = b.tag) && decide (a.isComment = b.isComment) &&
    decide (a.data.isSome = b.data.isSome) &&
    (decide (a.tag ≠ some "input") || decide (claimTypeAttr a = claimTypeAttr b)))
   ||
   (a.isAsyncPlaceholder && afErrorUndef b))

/-- The amended input clause: the computed type values (false when the
data bag or its attrs are missing, else the type attribute) are identical,
or both are text-input types. -/
def c1AmendedPred (a b : VNode) : Bool :=
  decide (a.key = b.key) &&
  decide (a.asyncFactory = b.asyncFactory) &&
  ((decide (a.tag = b.tag) && decide (a.isComment = b.isComment) &&
    decide (a.data.isSome = b.data.isSome) &&
    (decide (a.tag ≠ some "input") ||
     (decide (inputTypeOf a = inputTypeOf b) ||
      (isTextInputTypeJ (inputTypeOf a) && isTextInputTypeJ (inputTypeOf b)))))
   ||
   (a.isAsyncPlaceholder && afErrorUndef b))

/-- A bare input element vnode with the given type attribute. -/
def inputVnode (ty : String) (oidv : Nat) : VNode :=
  { oid := oidv, tag := some "input", key := none,
    data := some { attrs := some { type := some ty } }, children := none, text := none,
    elm := none, isComment := false, isStatic := false, isCloned := false, isOnce := false,
    isAsyncPlaceholder := false, asyncFactory := none, componentInstance := none }

/-- Counterexample to C1 as stated: two input vnodes with type text and
type password are judged the same by sameVnode (both are text input
types), yet their input type attributes are not equal, so the claimed
biconditional fails. -/
theorem c1_counterexample :
    sameVnode (inputVnode "text" 1) (inputVnode "password" 2) = true ∧
    c1ClaimPred (inputVnode "text" 1) (inputVnode "password" 2) = false := by
  constructor <;> decide

/-- C1 amended: sameVnode agrees everywhere with the claim's predicate
once the input clause is corrected to "the computed input type values are
identical or both are text-input types". -/
theorem c1_sameVnode_amended (a b : VNode) : sameVnode a b = c1AmendedPred a b := by
  by_cases h : a.tag = some "input"
  · simp [sameVnode, c1AmendedPred, sameInputType, h]
  · simp [sameVnode, c1AmendedPred, sameInputType, h]

/-- Host-DOM operations the reconciler performs, as logged events. -/
inductive NOp where
  | createElement (tag : String) (id : Nat)
  | createComment (text : String) (id : Nat)
  | createTextNode (text : String) (id : Nat)
  | insertBefore (parent child : Nat) (ref : Option Nat)
  | appendChild (parent child : Nat)
  | removeChild (parent child : Nat)
  | setTextContent (id : Nat) (text : String)
deriving DecidableEq, Repr

/-- Reconciler-side mutable world: the operation log, a fresh-id counter
for created host nodes and cloned vnodes, the host tree as a map from
element id to its ordered child list, and the fuel-exhaustion marker. -/
structure PState where
  ops : List NOp
  fresh : Nat
  childrenMap : List (Nat × List Nat)
  fuelOut : Bool
deriving Repr

def lookupChildren (m : List (Nat × List Nat)) (p : Nat) : List Nat :=
  match m.find? (fun e => e.1 == p) with
  | some e => e.2
  | none => []

def setChildrenEntry (m : List (Nat × List Nat)) (p : Nat) (l : List Nat) :
    List (Nat × List Nat) :=
  match m with
  | [] => [(p, l)]
  | e :: rest => if e.1 = p then (p, l) :: rest else e :: setChildrenEntry rest p l

/-- nodeOps.parentNode: the element whose child list contains c. -/
def parentNodeOf (st : PState) (c : Nat) : Option Nat :=
  (st.childrenMap.find? (fun e => e.2.contains c)).map (fun e => e.1)

def detachChild (m : List (Nat × List Nat)) (c : Nat) : List (Nat × List Nat) :=
  m.map (fun e => (e.1, e.2.filter (fun x => !(x == c))))

def insertBeforeList (c r : Nat) : List Nat → List Nat
  | [] => [c]
  | x :: xs => if x = r then c :: x :: xs else x :: insertBeforeList c r xs

def afterInList : List Nat → Nat → Option Nat
  | [], _ => none
  | [_], _ => none
  | x :: y :: rest, c => if x = c then some y else afterInList (y :: rest) c

/-- nodeOps.nextSibling. -/
def nextSiblingOf (st : PState) (c : Nat) : Option Nat :=
  match parentNodeOf st c with
  | none => none
  | some p => afterInList (lookupChildren st.childrenMap p) c

def opCreateElement (st : PState) (tag : String) : PState × Nat :=
  let id := st.fresh
  ({ st with
      fresh := id + 1,
      ops := st.ops ++ [NOp.createElement tag id],
      childrenMap := setChildrenEntry st.childrenMap id [] }, id)

def opCreateComment (st : PState) (text : String) : PState × Nat :=
  let id := st.fresh
  ({ st with
      fresh := id + 1,
      ops := st.ops ++ [NOp.createComment text id],
      childrenMap := setChildrenEntry st.childrenMap id [] }, id)

def opCreateTextNode (st : PState) (text : String) : PState × Nat :=
  let id := st.fresh
  ({ st with
      fresh := id + 1,
      ops := st.ops ++ [NOp.createTextNode text id],
      childrenMap := setChildrenEntry st.childrenMap id [] }, id)

/-- Move/insert c under p, before ref (append when ref is absent, as the
host insertBefore does with an undefined reference). -/
def domPlace (st : PState) (p c : Nat) (ref : Option Nat) : PState :=
  let m := detachChild st.childrenMap c
  let l := lookupChildren m p
  let l2 :=
    match ref with
    | none => l ++ [c]
    | some r => insertBeforeList c r l
  { st with childrenMap := setChildrenEntry m p l2 }

def opInsertBefore (st : PState) (p c : Nat) (ref : Option Nat) : PState :=
  domPlace { st with ops := st.ops ++ [.insertBefore p c ref] } p c ref

def opAppendChild (st : PState) (p c : Nat) : PState :=
  domPlace { st with ops := st.ops ++ [.appendChild p c] } p c none

def opRemoveChild (st : PState) (p c : Nat) : PState :=
  { st with ops := st.ops ++ [.removeChild p c], childrenMap := detachChild st.childrenMap c }

def opSetTextContent (st : PState) (id : Nat) (text : String) : PState :=
  { st with ops := st.ops ++ [.setTextContent id text] }

/-- removeNode from patch.js: look up the parent and remove the child only
when a parent still exists. -/
def removeNodeM (st : PState) (elm : Option Nat) : PState :=
  match elm with
  | none => st
  | some el =>
    match parentNodeOf st el with
    | some p => opRemoveChild st p el
    | none => st

/-- insert from patch.js: only with a parent; with a reference node only
when that reference is still a child of the same parent, else append. -/
def insertM (st : PState) (parent : Option Nat) (elm : Nat) (ref : Option Nat) : PState :=
  match parent with
  | none => st
  | some p =>
    match ref with
    | some r => if parentNodeOf st r = some p then opInsertBefore st p elm (some r) else st
    | none => opAppendChild st p elm

/-- Modelled from the spec: cloneVNode lives in src/core/vdom/vnode.js,
which is not among the provided sources; the spec says a node reused in
two places is cloned to avoid aliasing.  The clone copies every field,
is a fresh object (new oid) and is marked isCloned. -/
def cloneOn (st : PState) (v : VNode) : PState × VNode :=
  ({ st with fresh := st.fresh + 1 }, { v with oid := st.fresh, isCloned := true })

/-- The host-element back-reference of a materialized vnode.  Every vnode
whose elm the reconciler reads has been materialized, so the default is
never observed in the modelled runs. -/
def elmOf (v : VNode) : Nat := v.elm.getD 0

/-- JavaScript-style indexing into the old children array: out-of-range
(including negative) indices read as undefined, like oldCh[-1]. -/
def getOldAt (l : List (Option VNode)) (i : Int) : Option VNode :=
  if i < 0 then none else l.getD i.toNat none

def getNewAt (l : List VNode) (i : Int) : Option VNode :=
  if i < 0 then none else l[i.toNat]?

def setNewAt (l : List VNode) (i : Int) (v : VNode) : List VNode :=
  l.set i.toNat v

def setOldAt (l : List (Option VNode)) (i : Int) (v : Option VNode) : List (Option VNode) :=
  l.set i.toNat v

def ckAssocSet (m : List (Nat × Int)) (k : Nat) (v : Int) : List (Nat × Int) :=
  match m with
  | [] => [(k, v)]
  | e :: rest => if e.1 = k then (k, v) :: rest else e :: ckAssocSet rest k v

/-- Walk of createKeyToOldIdx from beginIdx for n slots, accumulating
key-to-index entries (a later duplicate key overwrites the earlier entry,
as assignment into the JS object map does).  The map is built before any
slot has been consumed, so the entries are all defined. -/
def ckGo (oldCh : List (Option VNode)) : Nat → Int → List (Nat × Int) → List (Nat × Int)
  | 0, _, m => m
  | n + 1, i, m =>
    let m2 :=
      match getOldAt oldCh i with
      | some c =>
        match c.key with
        | some k => ckAssocSet m k i
        | none => m
      | none => m
    ckGo oldCh n (i + 1) m2

/-- createKeyToOldIdx from patch.js: keys of children[beginIdx..endIdx],
endIdx inclusive. -/
def createKeyToOldIdx (oldCh : List (Option VNode)) (beginIdx endIdx : Int) :
    List (Nat × Int) :=
  ckGo oldCh (endIdx + 1 - beginIdx).toNat beginIdx []

def ckLookup (m : List (Nat × Int)) (k : Nat) : Option Int :=
  (m.find? (fun e => e.1 == k)).map (fun e => e.2)

/-- Walk of findIdxInOld from index i for n slots: return the first index
whose defined entry is judged sameVnode with node. -/
def findIdxInOldGo (node : VNode) (oldCh : List (Option VNode)) : Nat → Int → Option Int
  | 0, _ => none
  | n + 1, i =>
    match getOldAt oldCh i with
    | some c =>
      if sameVnode node c then some i else findIdxInOldGo node oldCh n (i + 1)
    | none => findIdxInOldGo node oldCh n (i + 1)

/-- findIdxInOld from patch.js: for (let i = start; i < end; i++) — the
bound is strictly below endIdx, so the slot at endIdx is never inspected. -/
def findIdxInOld (node : VNode) (oldCh : List (Option VNode)) (start endIdx : Int) :
    Option Int :=
  findIdxInOldGo node oldCh (endIdx - start).toNat start

/-- Return values of the mutually recursive reconciler procedures: a
patched or created vnode, an updated vnode array, the final pair of child
arrays of updateChildren, or nothing. -/
inductive PRet where
  | rv (v : VNode)
  | rvs (l : List VNode)
  | rpair (o : List (Option VNode)) (n : List VNode)
  | runit

/-- Call descriptors for the mutually recursive reconciler procedures of
patch.js: patchVnode, updateChildren (split into its cursor loop),
createElm, createChildren, addVnodes and removeVnodes.  A single
fuel-indexed interpreter executes them so that every recursive call is
structural on the fuel. -/
inductive PCall where
  | patchV (old new : VNode) (removeOnly : Bool)
  | updCh (parentElm : Nat) (oldCh : List (Option VNode)) (newCh : List VNode)
      (removeOnly : Bool)
  | updLoop (parentElm : Nat) (oldCh : List (Option VNode)) (newCh : List VNode)
      (oldStartIdx oldEndIdx newStartIdx newEndIdx : Int)
      (keyMap : Option (List (Nat × Int))) (removeOnly : Bool)
  | createE (v : VNode) (parentElm : Option Nat) (refElm : Option Nat) (owned : Bool)
  | createKids (parentElm : Nat) (kids : List VNode)
  | addV (parentElm : Nat) (refElm : Option Nat) (vnodes : List VNode) (startIdx endIdx : Int)
  | remV (vnodes : List (Option VNode)) (startIdx endIdx : Int)

/-- The reconciler interpreter.  The modelled backend registers no module
callbacks (cbs is empty for every hook) and the modelled data bags carry
no hook object, so createComponent never fires, invokeCreateHooks,
prepatch/update/postpatch do nothing, and removeAndInvokeRemoveHook plus
invokeDestroyHook reduce to removing the host node.  Development-only
duplicate-key warnings are not part of the operation log. -/
def pgo : Nat → PCall → PState → PState × PRet
  | 0, _, st => ({ st with fuelOut := true }, PRet.runit)
  | f + 1, c, st =>
    match c with
    | .createE v parentElm refElm owned =>
      -- clone on reuse: if (isDef(vnode.elm) && isDef(ownerArray)) vnode = cloneVNode(vnode)
      let sv := if v.elm.isSome && owned then cloneOn st v else (st, v)
      let st := sv.1
      let v := sv.2
      match v.tag with
      | some tag =>
        let r := opCreateElement st tag
        let st := r.1
        let elmId := r.2
        let v := { v with elm := some elmId }
        -- setScope: scoped-CSS attribute tagging, outside the claims
        -- createChildren: recurse into an array, else append a text child
        let sk :=
          match v.children with
          | some kids =>
            let rk := pgo f (.createKids elmId kids) st
            match rk.2 with
            | .rvs kids2 => (rk.1, { v with children := some kids2 })
            | _ => (rk.1, v)
          | none =>
            match v.text with
            | some t =>
              let rt := opCreateTextNode st t
              (opAppendChild rt.1 elmId rt.2, v)
            | none => (st, v)
        -- invokeCreateHooks: empty backend, nothing to invoke
        (insertM sk.1 parentElm elmId refElm, PRet.rv sk.2)
      | none =>
        if v.isComment then
          let r := opCreateComment st (v.text.getD "")
          let v := { v with elm := some r.2 }
          (insertM r.1 parentElm r.2 refElm, PRet.rv v)
        else
          let r := opCreateTextNode st (v.text.getD "")
          let v := { v with elm := some r.2 }
          (insertM r.1 parentElm r.2 refElm, PRet.rv v)
    | .createKids parentElm kids =>
      match kids with
      | [] => (st, PRet.rvs [])
      | k :: rest =>
        let r1 := pgo f (.createE k (some parentElm) none true) st
        let k2 := match r1.2 with | .rv v => v | _ => k
        let r2 := pgo f (.createKids parentElm rest) r1.1
        match r2.2 with
        | .rvs rest2 => (r2.1, PRet.rvs (k2 :: rest2))
        | _ => (r2.1, PRet.rvs [k2])
    | .patchV old vnew removeOnly =>
      -- if (oldVnode === vnode) return
      if old.oid = vnew.oid then (st, PRet.rv vnew)
      else
        -- clone reused vnode (every modelled call passes an owner array)
        let sv := if vnew.elm.isSome then cloneOn st vnew else (st, vnew)
        let st := sv.1
        let vnew := { sv.2 with elm := old.elm }
        if old.isAsyncPlaceholder then
          if (vnew.asyncFactory.bind (fun fa => fa.resolved)).isSome then
            -- hydrate(...): hydration path, not reached by the modelled runs
            (st, PRet.rv vnew)
          else
            (st, PRet.rv { vnew with isAsyncPlaceholder := true })
        else
          -- static-tree reuse shortcut
          if vnew.isStatic && old.isStatic && decide (vnew.key = old.key) &&
              (vnew.isCloned || vnew.isOnce) then
            (st, PRet.rv { vnew with componentInstance := old.componentInstance })
          else
            -- prepatch hook / module update callbacks: none registered
            match vnew.text with
            | none =>
              match old.children, vnew.children with
              | some oc, some nc =>
                -- oldCh !== ch holds for the modelled inputs (arrays from
                -- distinct renders), so updateChildren always runs here
                let r := pgo f (.updCh (elmOf old) (oc.map some) nc removeOnly) st
                match r.2 with
                | .rpair _ nc2 => (r.1, PRet.rv { vnew with children := some nc2 })
                | _ => (r.1, PRet.rv vnew)
              | none, some nc =>
                let st := if old.text.isSome then opSetTextContent st (elmOf vnew) "" else st
                let r := pgo f (.addV (elmOf vnew) none nc 0 ((nc.length : Int) - 1)) st
                match r.2 with
                | .rvs nc2 => (r.1, PRet.rv { vnew with children := some nc2 })
                | _ => (r.1, PRet.rv vnew)
              | some oc, none =>
                let r := pgo f (.remV (oc.map some) 0 ((oc.length : Int) - 1)) st
                (r.1, PRet.rv vnew)
              | none, none =>
                if old.text.isSome then (opSetTextContent st (elmOf vnew) "", PRet.rv vnew)
                else (st, PRet.rv vnew)
            | some t =>
              if old.text ≠ some t then (opSetTextContent st (elmOf vnew) t, PRet.rv vnew)
              else (st, PRet.rv vnew)
    | .addV parentElm refElm vnodes startIdx endIdx =>
      if startIdx ≤ endIdx then
        match getNewAt vnodes startIdx with
        | some v =>
          let r1 := pgo f (.createE v (some parentElm) refElm true) st
          let vnodes2 :=
            match r1.2 with
            | .rv v2 => setNewAt vnodes startIdx v2
            | _ => vnodes
          pgo f (.addV parentElm refElm vnodes2 (startIdx + 1) endIdx) r1.1
        | none => (st, PRet.rvs vnodes)
      else (st, PRet.rvs vnodes)
    | .remV vnodes startIdx endIdx =>
      if startIdx ≤ endIdx then
        let st2 :=
          match getOldAt vnodes startIdx with
          | some ch =>
            -- element: removeAndInvokeRemoveHook + invokeDestroyHook; text
            -- node: removeNode. With the empty backend both reduce to
            -- removing the host node.
            removeNodeM st ch.elm
          | none => st
        pgo f (.remV vnodes (startIdx + 1) endIdx) st2
      else (st, PRet.runit)
    | .updCh parentElm oldCh newCh removeOnly =>
      pgo f (.updLoop parentElm oldCh newCh 0 ((oldCh.length : Int) - 1) 0
        ((newCh.length : Int) - 1) none removeOnly) st
    | .updLoop parentElm oldCh newCh oldStartIdx oldEndIdx newStartIdx newEndIdx
        keyMap removeOnly =>
      let canMove := !removeOnly
      if oldStartIdx ≤ oldEndIdx ∧ newStartIdx ≤ newEndIdx then
        match getOldAt oldCh oldStartIdx with
        | none =>
          pgo f (.updLoop parentElm oldCh newCh (oldStartIdx + 1) oldEndIdx newStartIdx
            newEndIdx keyMap removeOnly) st
        | some oldStartVnode =>
          match getOldAt oldCh oldEndIdx with
          | none =>
            pgo f (.updLoop parentElm oldCh newCh oldStartIdx (oldEndIdx - 1) newStartIdx
              newEndIdx keyMap removeOnly) st
          | some oldEndVnode =>
            match getNewAt newCh newStartIdx, getNewAt newCh newEndIdx with
            | some newStartVnode, some newEndVnode =>
              if sameVnode oldStartVnode newStartVnode then
                let r := pgo f (.patchV oldStartVnode newStartVnode removeOnly) st
                let newCh2 :=
                  match r.2 with
                  | .rv v => setNewAt newCh newStartIdx v
                  | _ => newCh
                pgo f (.updLoop parentElm oldCh newCh2 (oldStartIdx + 1) oldEndIdx
                  (newStartIdx + 1) newEndIdx keyMap removeOnly) r.1
              else if sameVnode oldEndVnode newEndVnode then
                let r := pgo f (.patchV oldEndVnode newEndVnode removeOnly) st
                let newCh2 :=
                  match r.2 with
                  | .rv v => setNewAt newCh newEndIdx v
                  | _ => newCh
                pgo f (.updLoop parentElm oldCh newCh2 oldStartIdx (oldEndIdx - 1)
                  newStartIdx (newEndIdx - 1) keyMap removeOnly) r.1
              else if sameVnode oldStartVnode newEndVnode then
                -- vnode moved right
                let r := pgo f (.patchV oldStartVnode newEndVnode removeOnly) st
                let newCh2 :=
                  match r.2 with
                  | .rv v => setNewAt newCh newEndIdx v
                  | _ => newCh
                let st2 :=
                  if canMove then
                    opInsertBefore r.1 parentElm (elmOf oldStartVnode)
                      (nextSiblingOf r.1 (elmOf oldEndVnode))
                  else r.1
                pgo f (.updLoop parentElm oldCh newCh2 (oldStartIdx + 1) oldEndIdx
                  newStartIdx (newEndIdx - 1) keyMap removeOnly) st2
              else if sameVnode oldEndVnode newStartVnode then
                -- vnode moved left
                let r := pgo f (.patchV oldEndVnode newStartVnode removeOnly) st
                let newCh2 :=
                  match r.2 with
                  | .rv v => setNewAt newCh newStartIdx v
                  | _ => newCh
                let st2 :=
                  if canMove then
                    opInsertBefore r.1 parentElm (elmOf oldEndVnode)
                      (some (elmOf oldStartVnode))
                  else r.1
                pgo f (.updLoop parentElm oldCh newCh2 oldStartIdx (oldEndIdx - 1)
                  (newStartIdx + 1) newEndIdx keyMap removeOnly) st2
              else
                -- keyed fallback: build the index map once, then look up
                let m :=
                  match keyMap with
                  | some m => m
                  | none => createKeyToOldIdx oldCh oldStartIdx oldEndIdx
                let idxInOld :=
                  match newStartVnode.key with
                  | some k => ckLookup m k
                  | none => findIdxInOld newStartVnode oldCh oldStartIdx oldEndIdx
                match idxInOld with
                | none =>
                  -- new element
                  let r := pgo f (.createE newStartVnode (some parentElm)
                    (some (elmOf oldStartVnode)) true) st
                  let newCh2 :=
                    match r.2 with
                    | .rv v => setNewAt newCh newStartIdx v
                    | _ => newCh
                  pgo f (.updLoop parentElm oldCh newCh2 oldStartIdx oldEndIdx
                    (newStartIdx + 1) newEndIdx (some m) removeOnly) r.1
                | some idx =>
                  match getOldAt oldCh idx with
                  | some vnodeToMove =>
                    if sameVnode vnodeToMove newStartVnode then
                      let r := pgo f (.patchV vnodeToMove newStartVnode removeOnly) st
                      let newCh2 :=
                        match r.2 with
                        | .rv v => setNewAt newCh newStartIdx v
                        | _ => newCh
                      let oldCh2 := setOldAt oldCh idx none
                      let st2 :=
                        if canMove then
                          opInsertBefore r.1 parentElm (elmOf vnodeToMove)
                            (some (elmOf oldStartVnode))
                        else r.1
                      pgo f (.updLoop parentElm oldCh2 newCh2 oldStartIdx oldEndIdx
                        (newStartIdx + 1) newEndIdx (some m) removeOnly) st2
                    else
                      -- same key but different element: treat as new element
                      let r := pgo f (.createE newStartVnode (some parentElm)
                        (some (elmOf oldStartVnode)) true) st
                      let newCh2 :=
                        match r.2 with
                        | .rv v => setNewAt newCh newStartIdx v
                        | _ => newCh
                      pgo f (.updLoop parentElm oldCh newCh2 oldStartIdx oldEndIdx
                        (newStartIdx + 1) newEndIdx (some m) removeOnly) r.1
                  | none =>
                    -- stale map entry for a consumed slot (duplicate new keys
                    -- would be needed to get here); modelled as a fresh element
                    let r := pgo f (.createE newStartVnode (some parentElm)
                      (some (elmOf oldStartVnode)) true) st
                    let newCh2 :=
                      match r.2 with
                      | .rv v => setNewAt newCh newStartIdx v
                      | _ => newCh
                    pgo f (.updLoop parentElm oldCh newCh2 oldStartIdx oldEndIdx
                      (newStartIdx + 1) newEndIdx (some m) removeOnly) r.1
            | _, _ => ({ st with fuelOut := true }, PRet.rpair oldCh newCh)
      else
        if oldStartIdx > oldEndIdx then
          let refElm :=
            match getNewAt newCh (newEndIdx + 1) with
            | none => none
            | some v => v.elm
          let r := pgo f (.addV parentElm refElm newCh newStartIdx newEndIdx) st
          match r.2 with
          | .rvs newCh2 => (r.1, PRet.rpair oldCh newCh2)
          | _ => (r.1, PRet.rpair oldCh newCh)
        else
          if newStartIdx > newEndIdx then
            let r := pgo f (.remV oldCh oldStartIdx oldEndIdx) st
            (r.1, PRet.rpair oldCh newCh)
          else (st, PRet.rpair oldCh newCh)

/-- Run updateChildren on plain child arrays, returning the final state
and the (consumed) old and (patched) new arrays. -/
def updateChildrenRun (fuel : Nat) (st : PState) (parentElm : Nat) (oldCh newCh : List VNode)
    (removeOnly : Bool) : PState × List (Option VNode) × List VNode :=
  let r := pgo fuel (.updCh parentElm (oldCh.map some) newCh removeOnly) st
  match r.2 with
  | .rpair o n => (r.1, o, n)
  | _ => (r.1, oldCh.map some, newCh)

/-- A flat keyed element vnode (tag div, no data bag, no children). -/
def elemVnode (oidv : Nat) (k : Option Nat) (e : Option Nat) : VNode :=
  { oid := oidv, tag := some "div", key := k, data := none, children := none, text := none,
    elm := e, isComment := false, isStatic := false, isCloned := false, isOnce := false,
    isAsyncPlaceholder := false, asyncFactory := none, componentInstance := none }

def c2St : PState :=
  { ops := [], fresh := 200, childrenMap := [(100, [1, 2, 3])], fuelOut := false }

def c2Old : List VNode :=
  [elemVnode 1 (some 1) (some 1), elemVnode 2 (some 2) (some 2), elemVnode 3 (some 3) (some 3)]

def c2New : List VNode :=
  [elemVnode 13 (some 3) none, elemVnode 11 (some 1) none, elemVnode 12 (some 2) none]

def c3St : PState :=
  { ops := [], fresh := 200, childrenMap := [(100, [1, 2])], fuelOut := false }

def c3Old : List VNode :=
  [elemVnode 1 (some 1) (some 1), elemVnode 2 (some 2) (some 2)]

def c3New : List VNode :=
  [elemVnode 11 (some 1) none, elemVnode 13 (some 9) none, elemVnode 12 (some 2) none]

/-- The old element at the old-end cursor in the C10 scenario: a resolved
async component root (tag div, keyless, same factory as the placeholder,
no recorded error). -/
def c10E : VNode :=
  { oid := 2, tag := some "div", key := none, data := none, children := none, text := none,
    elm := some 2, isComment := false, isStatic := false, isCloned := false, isOnce := false,
    isAsyncPlaceholder := false, asyncFactory := some { fid := 7, error := none, resolved := none },
    componentInstance := none }

/-- The keyless new-start child in the C10 scenario: an unresolved async
placeholder (comment vnode) carrying the same factory. -/
def c10P : VNode :=
  { oid := 11, tag := none, key := none, data := none, children := none, text := some "",
    elm := none, isComment := true, isStatic := false, isCloned := false, isOnce := false,
    isAsyncPlaceholder := true, asyncFactory := some { fid := 7, error := none, resolved := none },
    componentInstance := none }

def c10St : PState :=
  { ops := [], fresh := 200, childrenMap := [(100, [1, 2])], fuelOut := false }

def c10Old : List VNode := [elemVnode 1 (some 1) (some 1), c10E]

def c10New : List VNode := [c10P, elemVnode 12 (some 2) none]

/-- Test for host-node creations in the operation log. -/
def isCreateOp : NOp → Bool
  | .createElement _ _ => true
  | .createComment _ _ => true
  | .createTextNode _ _ => true
  | _ => false

/-- Test for host-node removals in the operation log. -/
def isRemoveOp : NOp → Bool
  | .removeChild _ _ => true
  | _ => false

/-- C2: diffing old children [a(1), b(2), c(3)] against new children
[c(3), a(1), b(2)] performs exactly one host operation — one insertBefore
relocating c's element (id 3) to the front, before a's element (id 1) —
with zero creations and zero removals. -/
theorem c2_swap_one_move :
    (∀ o ∈ c2Old, ∀ n ∈ c2New, sameVnode o n = decide (o.key = n.key)) ∧
    (updateChildrenRun 40 c2St 100 c2Old c2New false).1.ops
      = [NOp.insertBefore 100 3 (some 1)] ∧
    (updateChildrenRun 40 c2St 100 c2Old c2New false).1.ops.countP isCreateOp = 0 ∧
    (updateChildrenRun 40 c2St 100 c2Old c2New false).1.ops.countP isRemoveOp = 0 ∧
    (updateChildrenRun 40 c2St 100 c2Old c2New false).1.fuelOut = false := by
  decide

/-- C3: diffing old children [a(1), b(2)] against new children
[a(1), x(9), b(2)] creates exactly one element (for x) and removes
nothing: the log is one createElement plus its insertion before b. -/
theorem c3_middle_insert_one_create :
    (∀ o ∈ c3Old, ∀ n ∈ c3New, sameVnode o n = decide (o.key = n.key)) ∧
    (updateChildrenRun 40 c3St 100 c3Old c3New false).1.ops
      = [NOp.createElement "div" 200, NOp.insertBefore 100 200 (some 2)] ∧
    (updateChildrenRun 40 c3St 100 c3Old c3New false).1.ops.countP isCreateOp = 1 ∧
    (updateChildrenRun 40 c3St 100 c3Old c3New false).1.ops.countP isRemoveOp = 0 ∧
    (updateChildrenRun 40 c3St 100 c3Old c3New false).1.fuelOut = false := by
  decide

/-- C10: the keyless fallback search is bounded strictly below the old-end
cursor.  In the concrete diff of old [x(key 1), E] against new [P, y(key 2)]
— where P is an unresolved async placeholder judged sameVnode with E, but E
(old-end) is not judged sameVnode with P by the four probes — findIdxInOld
inspects only index 0 and misses the match at index 1 (= oldEndIdx), so a
fresh element is created for P and E's host node is removed instead of
being reused. -/
theorem c10_findIdxInOld_excludes_oldEnd :
    sameVnode c10P c10E = true ∧
    sameVnode c10E c10P = false ∧
    findIdxInOld c10P (c10Old.map some) 0 1 = none ∧
    (updateChildrenRun 40 c10St 100 c10Old c10New false).1.ops
      = [NOp.createComment "" 200, NOp.insertBefore 100 200 (some 1),
         NOp.createElement "div" 201, NOp.insertBefore 100 201 (some 1),
         NOp.removeChild 100 1, NOp.removeChild 100 2] ∧
    (updateChildrenRun 40 c10St 100 c10Old c10New false).1.fuelOut = false := by
  decide

end Patch
